import Mathlib

/-!
Verification of the XPT (SAS transport file) loader `xptlib.h` against its
natural-language specification.

The development shallow-embeds the C++ source:

* machine integers (`uint64_t`, `uint16_t`, …) become `Nat` with explicit
  `% 2 ^ w` at the points where the C++ arithmetic wraps;
* the byte stream of the input file becomes a `List Nat` of byte values,
  with an explicit read cursor;
* fallible operations (C++ exceptions) become `Option` / explicit error
  constructors;
* a `double` is represented by its 64-bit IEEE754 bit pattern (the source
  assembles exactly that pattern and `bit_cast`s it).
-/

namespace Xpt

/-! ## Numeric codec: `xpt::internal::IbmToIEEE` -/

/-- The `shift` computed by `IbmToIEEE` (xptlib.h lines 243-252): 3 if bit 55
of the machine-endian input is set, else 2 if bit 54 is set, else 1 if bit 53
is set, else 0.  A test `in & 0x0080000000000000` is `x / 2 ^ 55 % 2 = 1`. -/
def ibmShift (x : Nat) : Nat :=
  if x / 2 ^ 55 % 2 = 1 then 3
  else if x / 2 ^ 54 % 2 = 1 then 2
  else if x / 2 ^ 53 % 2 = 1 then 1
  else 0

/-- Embedding of `xpt::internal::IbmToIEEE` (xptlib.h lines 235-262).

The C++ function takes the raw 8 bytes read from the file as a `uint64_t` and
first byte-reverses it into machine endianness (`To_Machine_Endian_Raw`); the
argument `x` here is that machine-endian value `in`, i.e. the big-endian
interpretation of the 8 file bytes.  The result is the 64-bit IEEE754 bit
pattern the function `bit_cast`s to `double`.

Bitwise operations on contiguous masks are translated arithmetically:
`in & 0x8000000000000000` is `x / 2 ^ 63 % 2 * 2 ^ 63`,
`(in & 0x7f00000000000000) >> 56` is `x / 2 ^ 56 % 2 ^ 7`,
`in & 0x00ffffffffffffff` is `x % 2 ^ 56`, and
`m & 0xffefffffffffffff` (clear bit 52 only) is
`m % 2 ^ 52 + m / 2 ^ 53 * 2 ^ 53`.  The `uint64_t` subtraction
`exponent -= 65` wraps, hence `(e + (2 ^ 64 - 65)) % 2 ^ 64`; the shifts
`<<= 2` and `<< 52` wrap likewise.  The final assembly keeps the C++
bitwise ors. -/
def IbmToIEEE (x : Nat) : Nat :=
  let sign := x / 2 ^ 63 % 2 * 2 ^ 63
  let exponent := x / 2 ^ 56 % 2 ^ 7
  let mantissa := x % 2 ^ 56
  let shift := ibmShift x
  let mantissa2 := mantissa / 2 ^ shift
  let mantissa3 := mantissa2 % 2 ^ 52 + mantissa2 / 2 ^ 53 * 2 ^ 53
  let exponent2 := (exponent + (2 ^ 64 - 65)) % 2 ^ 64
  let exponent3 := exponent2 * 4 % 2 ^ 64
  let exponent4 := (exponent3 + shift + 1023) % 2 ^ 64
  sign ||| exponent4 * 2 ^ 52 % 2 ^ 64 ||| mantissa3

/-- The number of leading zero bits (0-3) within the top nibble (bits 52-55)
of the 56-bit mantissa.  Modelled from the spec's words in section 4.2:
"normalize by finding the number of leading zero bits (0-3) within the top
nibble of the mantissa; call this shift".  Used to state claim C2 exactly as
the spec writes it. -/
def lzTopNibble (x : Nat) : Nat :=
  if x / 2 ^ 55 % 2 = 1 then 0
  else if x / 2 ^ 54 % 2 = 1 then 1
  else if x / 2 ^ 53 % 2 = 1 then 2
  else 3

/-! ## Bytes, trimming and buffer extraction -/

/-- ASCII whitespace, as C `isspace` in the default locale classifies the
byte: space (32), or 9-13 (tab, newline, vertical tab, form feed, carriage
return). -/
def isSpaceByte (b : Nat) : Bool := b = 32 || (9 ≤ b && b ≤ 13)

/-- Drop the trailing bytes satisfying `p`: the reverse-find-erase idiom
used by `Char_To_String` and the string `Get_From_Buffer`. -/
def dropTrailing (p : Nat → Bool) (s : List Nat) : List Nat :=
  (s.reverse.dropWhile p).reverse

/-- Embedding of `xpt::internal::Char_To_String` (xptlib.h lines 184-196)
on the bytes of a fixed-size char array: erase trailing whitespace, then
leading whitespace. -/
def Char_To_String (s : List Nat) : List Nat :=
  (dropTrailing isSpaceByte s).dropWhile isSpaceByte

/-- Embedding of the string overload of `xpt::internal::Get_From_Buffer`
(lines 211-222): the `len` bytes at `offset` of the buffer, with trailing
bytes that are whitespace or NUL erased, then leading whitespace erased.
The C++ `std::copy` requires `offset + len <= buf.size()`; the model
totalizes by taking the bytes that exist. -/
def getStr (buf : List Nat) (offset len : Nat) : List Nat :=
  (dropTrailing (fun b => isSpaceByte b || b == 0) ((buf.drop offset).take len)).dropWhile
    isSpaceByte

/-- Big-endian value of a byte list (most significant byte first). -/
def beNat (bs : List Nat) : Nat := bs.foldl (fun a b => a * 256 + b % 256) 0

/-- Embedding of `Get_From_Buffer<uint64_t>` (lines 201-206) composed with
`To_Machine_Endian_Raw`, exactly as `Read_Next` and `Fetch_Column_Idx` use
it: the 8 bytes at `offset` of the row buffer interpreted big-endian.  (On a
little-endian host the struct copy makes `buf[offset]` the low byte and the
byte reverse then makes it the high byte; on a big-endian host the copy
places it high directly; the composition is host-independent.)  The C++
`std::copy` requires `offset + 8 <= buf.size()`; the model totalizes by
taking the bytes that exist. -/
def getU64 (buf : List Nat) (offset : Nat) : Nat := beNat ((buf.drop offset).take 8)

/-! ## Data model -/

/-- Embedding of `xpt::File::Variable_Record` (lines 287-294).  `type` keeps
the raw `ntype` value (the C++ casts an arbitrary `uint16_t` into the enum
unchecked); `NVar_Type::Numeric` is 1 and `NVar_Type::String` is 2.
Strings are byte lists. -/
structure Variable_Record where
  name : List Nat
  label : List Nat
  type : Nat
  length : Nat
  varNum : Nat
  position : Nat
deriving DecidableEq

/-- Embedding of `xpt::TValue` (`std::variant<std::string, double>`); a
double is carried as its IEEE754 bit pattern.  A default-constructed TValue,
as `target.resize` produces, is the empty string `vstr []`. -/
inductive TValue where
  | vstr (s : List Nat)
  | vnum (bits : Nat)
deriving DecidableEq

/-! ## Stream reads and the positional row decoder -/

/-- One bounded read from the open file: the `n` bytes at `pos`, or `none`
when fewer are available (`mFile.gcount() != byte_count`), in which case the
C++ `Read` throws `CEOF_Exception`. -/
def readBytes (file : List Nat) (pos n : Nat) : Option (List Nat) :=
  if pos + n ≤ file.length then some ((file.drop pos).take n) else none

/-- The decode loop of the positional `Read_Next` (lines 508-519), with the
loop bound made an explicit structural argument `fuel` (the caller passes
`vars.length`, so the loop runs for `i = 0, ..., vars.length - 1` exactly as
the C++ `for` does) so that the definition evaluates by kernel reduction:
for each variable in table order set `target[i]`; a variable whose `type` is
neither 1 (Numeric) nor 2 (String) leaves its slot untouched. -/
def fillRow (vars : List Variable_Record) (data : List Nat) :
    Nat → Nat → List TValue → List TValue
  | 0, _, target => target
  | fuel + 1, i, target =>
    if h : i < vars.length then
      fillRow vars data fuel (i + 1)
        (if vars[i].type = 1 then
          target.set i (TValue.vnum (IbmToIEEE (getU64 data vars[i].position)))
        else if vars[i].type = 2 then
          target.set i (TValue.vstr (getStr data vars[i].position vars[i].length))
        else target)
    else target

/-- Embedding of the positional `xpt::File::Read_Next` (lines 495-522) over
an explicit stream and cursor.  `none` is the C++ `return false`, reached
exactly when the row read threw `CEOF_Exception`; it is the function's only
failure path (the end-of-data signal).  `some row` is `return true` with
`target` resized to the variable count and filled by the loop. -/
def Read_Next (vars : List Variable_Record) (recLen : Nat) (file : List Nat)
    (pos : Nat) : Option (List TValue) :=
  match readBytes file pos recLen with
  | none => none
  | some data =>
    some (fillRow vars data vars.length 0 (List.replicate vars.length (TValue.vstr [])))

/-! ## The coerced (variadic) row decoder -/

/-- ASCII decimal digit. -/
def isDigitByte (b : Nat) : Bool := 48 ≤ b && b ≤ 57

/-- Value of an ASCII decimal digit list, most significant first. -/
def digitsVal (ds : List Nat) : Nat := ds.foldl (fun a d => a * 10 + (d - 48)) 0

/-- The exponent digits accepted by `strtod` after an `e`/`E` and an
optional sign; when no digit follows, the exponent marker is not part of the
longest valid prefix, so it contributes 0. -/
def stodExpSigned (r : List Nat) : Int :=
  match r with
  | 43 :: r2 =>
    if r2.takeWhile isDigitByte = [] then 0 else (digitsVal (r2.takeWhile isDigitByte) : Int)
  | 45 :: r2 =>
    if r2.takeWhile isDigitByte = [] then 0 else -(digitsVal (r2.takeWhile isDigitByte) : Int)
  | _ =>
    if r.takeWhile isDigitByte = [] then 0 else (digitsVal (r.takeWhile isDigitByte) : Int)

/-- The whole optional exponent part: `e` (101) or `E` (69) followed by
`stodExpSigned`. -/
def stodExp (t : List Nat) : Int :=
  match t with
  | 101 :: r => stodExpSigned r
  | 69 :: r => stodExpSigned r
  | _ => 0

/-- Scale an exact rational by a power of ten with integer exponent. -/
def scalePow10 (m : ℚ) (e : Int) : ℚ :=
  if 0 ≤ e then m * (10 : ℚ) ^ e.toNat else m / (10 : ℚ) ^ (-e).toNat

/-- Modelled `std::stod` on the byte text of a cell, covering the decimal
forms: optional leading whitespace, optional sign, integer digits, optional
fraction after a dot, optional decimal exponent, longest-valid-prefix.
(The hexadecimal, infinity and nan forms of `strtod`, and the rounding of
the exact decimal value to the nearest `double`, are outside the model: the
parsed value is kept as an exact rational.)  `none` models the
`std::invalid_argument` exception: no digit in the candidate mantissa. -/
def stod (s : List Nat) : Option ℚ :=
  let t := s.dropWhile isSpaceByte
  let st : ℚ × List Nat :=
    match t with
    | 43 :: r => (1, r)
    | 45 :: r => (-1, r)
    | _ => (1, t)
  let ip := st.2.takeWhile isDigitByte
  let t2 := st.2.dropWhile isDigitByte
  let ft : List Nat × List Nat :=
    match t2 with
    | 46 :: r => (r.takeWhile isDigitByte, r.dropWhile isDigitByte)
    | _ => ([], t2)
  if ip = [] ∧ ft.1 = [] then none
  else some (scalePow10
    (st.1 * ((digitsVal ip : ℚ) + (digitsVal ft.1 : ℚ) / (10 : ℚ) ^ ft.1.length))
    (stodExp ft.2))

/-- The type of one caller-supplied slot of the variadic `Read_Next`: a
`double&` or a `std::string&` parameter. -/
inductive SlotTy where
  | double
  | string
deriving DecidableEq

/-- The value `Fetch_Column_Idx` assigns to one slot, tagged by provenance
because a C++ `double` has no direct Lean counterpart here: `numFromIbm
bits` is the IEEE754 bit pattern the codec produced for a Numeric column;
`numFromStr q` is the exact value `std::stod` parsed from a String column's
trimmed text; `strFromCol` is a String column's trimmed bytes; `strFromNum
bits` stands for `std::to_string` of the double with bit pattern `bits`. -/
inductive CVal where
  | numFromIbm (bits : Nat)
  | numFromStr (q : ℚ)
  | strFromCol (s : List Nat)
  | strFromNum (bits : Nat)
deriving DecidableEq

/-- How a fetch fails: `coercion` models the `std::invalid_argument` thrown
by `std::stod` on unparseable text; `oob` models the out-of-range vector
access `mVariables[argIdx]` (undefined behavior in the C++, surfaced by the
model as an explicit error outcome). -/
inductive FetchErr where
  | coercion
  | oob
deriving DecidableEq

/-- Embedding of `xpt::File::Fetch_Column_Idx` (lines 354-379) for one slot:
a `double` slot takes the codec value of a Numeric column and otherwise
`std::stod` of the trimmed cell text; a `string` slot takes the trimmed text
of a String column and otherwise `std::to_string` of the codec value.  The
C++ indexes `mVariables[argIdx]` without any bounds check; an out-of-range
`argIdx` is the model's `oob` error. -/
def Fetch_Column_Idx (vars : List Variable_Record) (data : List Nat)
    (argIdx : Nat) (slot : SlotTy) : Except FetchErr CVal :=
  match vars[argIdx]? with
  | none => .error .oob
  | some mvar =>
    match slot with
    | .double =>
      if mvar.type = 1 then
        .ok (.numFromIbm (IbmToIEEE (getU64 data mvar.position)))
      else
        match stod (getStr data mvar.position mvar.length) with
        | some q => .ok (.numFromStr q)
        | none => .error .coercion
    | .string =>
      if mvar.type = 2 then
        .ok (.strFromCol (getStr data mvar.position mvar.length))
      else
        .ok (.strFromNum (IbmToIEEE (getU64 data mvar.position)))

/-- Embedding of the variadic `Fetch_Column` recursion (lines 382-395) over
the list of slot types: the head slot of a suffix `rest` is fetched with
`argIdx = origCnt - rest.length` (the C++ writes `origCnt -
(sizeof...(Args) + 1)`, and its one-argument base overload uses `origCnt -
1`, which is the same index), left to right; the first exception aborts the
remaining fetches. -/
def Fetch_Columns (vars : List Variable_Record) (data : List Nat)
    (origCnt : Nat) : List SlotTy → Except FetchErr (List CVal)
  | [] => .ok []
  | slot :: rest =>
    match Fetch_Column_Idx vars data (origCnt - (rest.length + 1)) slot with
    | .ok v =>
      match Fetch_Columns vars data origCnt rest with
      | .ok vs => .ok (v :: vs)
      | .error e => .error e
    | .error e => .error e

/-- Embedding of the variadic `xpt::File::Read_Next` (lines 531-548): read
one record, then fetch every slot.  `none` is `return false` on EOF (the
`CEOF_Exception` catch); `some r` carries the fetch outcome, where an
`Except.error` models an exception escaping the C++ function, which has no
handler for `std::invalid_argument` or for the out-of-range access. -/
def Read_Next_Coerced (vars : List Variable_Record) (recLen : Nat)
    (file : List Nat) (pos : Nat) (slots : List SlotTy) :
    Option (Except FetchErr (List CVal)) :=
  match readBytes file pos recLen with
  | none => none
  | some data => some (Fetch_Columns vars data slots.length slots)

/-! ## Header records and `Read_Headers` -/

/-- Header signatures as `Recognize_Data_Header` classifies them
(`xpt::internal::Header_Signature`). -/
inductive Header_Signature where
  | nosig
  | library
  | member
  | descriptor
  | namestr
  | observation
deriving DecidableEq

/-- Byte values of a string literal's characters. -/
def strBytes (s : String) : List Nat := s.toList.map Char.toNat

/-- Embedding of `xpt::File::Recognize_Data_Header` (lines 344-351): the 21
bytes of the `namedesc` field (offsets 20-40 within the 80-byte generic
header block, after `hdrrec[13]` and `stars[7]`) looked up among the five
signature strings; the C++ uses an `unordered_map` whose five keys are
exactly these 21-character strings, compared byte for byte. -/
def Recognize_Data_Header (block : List Nat) : Header_Signature :=
  let nd := (block.drop 20).take 21
  if nd = strBytes "LIBRARY HEADER RECORD" then .library
  else if nd = strBytes "MEMBER  HEADER RECORD" then .member
  else if nd = strBytes "DSCRPTR HEADER RECORD" then .descriptor
  else if nd = strBytes "NAMESTR HEADER RECORD" then .namestr
  else if nd = strBytes "OBS     HEADER RECORD" then .observation
  else .nosig

/-- Embedding of `xpt::NStatus` (lines 265-272). -/
inductive NStatus where
  | Ok
  | No_Library_Header
  | No_Member_Header
  | No_Descriptor_Header
  | No_Namestr_Header
  | No_Observation_Header
deriving DecidableEq

/-- `std::stoull` on the 5-byte ASCII count field `num2` (offsets 53-57 of
the generic header block): skip leading whitespace, read decimal digits;
`none` models the `std::invalid_argument` exception when no digit follows.
(The sign and base-prefix forms `stoull` also accepts do not occur in this
field and are outside the model.) -/
def stoull5 (bs : List Nat) : Option Nat :=
  let t := bs.dropWhile isSpaceByte
  let ds := t.takeWhile isDigitByte
  if ds = [] then none else some (digitsVal ds)

/-- Read-cursor state: the stream position and the trace of performed reads,
each entry `(offset, byte count)`.  `Read_Discard` (a seekg, lines 339-341)
advances `pos` without a trace entry and cannot fail. -/
structure RState where
  pos : Nat
  reads : List (Nat × Nat)
deriving DecidableEq

/-- One `Read` call (lines 310-336): `n` bytes at the cursor, recorded in
the trace; `none` models the thrown `CEOF_Exception` on a short read.  A
padded `Read<T>` is `doRead 80`; an unpadded one reads `sizeof(T)`. -/
def doRead (file : List Nat) (n : Nat) (s : RState) : Option (List Nat × RState) :=
  match readBytes file s.pos n with
  | some bs => some (bs, ⟨s.pos + n, s.reads ++ [(s.pos, n)]⟩)
  | none => none

/-- Parse of one descriptor pair (lines 456-470) from `Namestr_Record_1`
(80 bytes unpadded) and `Namestr_Record_2` (60 bytes unpadded): `ntype` is
the big-endian `uint16` at offset 0 of the first record, `nlng` at offset 4,
`nvar0` at offset 6; `nname` is its bytes 8-15 and `nlabel` its bytes 16-55,
both trimmed by `Char_To_String`; `npos` is the big-endian `int32` at offset
4 of the second record, converted by `static_cast<size_t>` (negative values
wrap modulo `2 ^ 64`). -/
def mkVariable (b1 b2 : List Nat) : Variable_Record :=
  let nposU := beNat ((b2.drop 4).take 4)
  { name := Char_To_String ((b1.drop 8).take 8)
    label := Char_To_String ((b1.drop 16).take 40)
    type := beNat (b1.take 2)
    length := beNat ((b1.drop 4).take 2)
    varNum := beNat ((b1.drop 6).take 2)
    position := if nposU < 2 ^ 31 then nposU else 2 ^ 64 - 2 ^ 32 + nposU }

/-- The descriptor loop of `Read_Headers` (lines 454-474), structurally
recursive on the remaining count: each iteration reads the two unpadded
records (80 + 60 = 140 bytes, the `readCnt` increment), appends the parsed
`Variable_Record` to `mVariables`, and adds the variable length to
`mRecord_Len`.  The `Bool` is `false` when a read threw `CEOF_Exception`
(the partial state is kept, as the C++ member fields are). -/
def readLoop (file : List Nat) :
    Nat → RState → List Variable_Record → Nat → Nat →
    Bool × RState × List Variable_Record × Nat × Nat
  | 0, s, vars, rlen, rcnt => (true, s, vars, rlen, rcnt)
  | n + 1, s, vars, rlen, rcnt =>
    match doRead file 80 s with
    | none => (false, s, vars, rlen, rcnt)
    | some (b1, s1) =>
      match doRead file 60 s1 with
      | none => (false, s1, vars, rlen, rcnt)
      | some (b2, s2) =>
        let v := mkVariable b1 b2
        readLoop file n s2 (vars ++ [v]) (rlen + v.length) (rcnt + 140)

/-- The padding discard after the descriptor loop (lines 477-480): the code
discards `80 - readCnt % 80` bytes when `readCnt % 80` is nonzero and
nothing otherwise, i.e. it advances the cursor by this amount. -/
def padAfter (rcnt : Nat) : Nat := if rcnt % 80 ≠ 0 then 80 - rcnt % 80 else 0

/-- The outcome of `Read_Headers`: `outcome` is `some status` for a normal
return and `none` when an exception escaped (a `CEOF_Exception` from a short
read, or `std::invalid_argument` from `std::stoull`); `pos` and `reads` are
the final cursor and the trace of reads; `vars` and `recLen` are the member
fields `mVariables` and `mRecord_Len` at exit. -/
structure HdrRes where
  outcome : Option NStatus
  pos : Nat
  reads : List (Nat × Nat)
  vars : List Variable_Record
  recLen : Nat
deriving DecidableEq

/-- Embedding of `xpt::File::Read_Headers` (lines 414-489) over an explicit
stream starting at position 0: the Library check, two discarded 80-byte
padded reads (`File_Header_Record`, `Date_Time_Record`), the Member check,
the Descriptor check, two discarded 80-byte padded reads
(`Member_Header_Record`, `Member_Header_Record_2`), the Namestr check, the
count parse from `num2`, the descriptor loop, the padding discard, and the
Observation check. -/
def Read_Headers (file : List Nat) : HdrRes :=
  match doRead file 80 ⟨0, []⟩ with
  | none => ⟨none, 0, [], [], 0⟩
  | some (b1, s1) =>
  if Recognize_Data_Header b1 ≠ .library then
    ⟨some .No_Library_Header, s1.pos, s1.reads, [], 0⟩
  else
  match doRead file 80 s1 with
  | none => ⟨none, s1.pos, s1.reads, [], 0⟩
  | some (_, s2) =>
  match doRead file 80 s2 with
  | none => ⟨none, s2.pos, s2.reads, [], 0⟩
  | some (_, s3) =>
  match doRead file 80 s3 with
  | none => ⟨none, s3.pos, s3.reads, [], 0⟩
  | some (b4, s4) =>
  if Recognize_Data_Header b4 ≠ .member then
    ⟨some .No_Member_Header, s4.pos, s4.reads, [], 0⟩
  else
  match doRead file 80 s4 with
  | none => ⟨none, s4.pos, s4.reads, [], 0⟩
  | some (b5, s5) =>
  if Recognize_Data_Header b5 ≠ .descriptor then
    ⟨some .No_Descriptor_Header, s5.pos, s5.reads, [], 0⟩
  else
  match doRead file 80 s5 with
  | none => ⟨none, s5.pos, s5.reads, [], 0⟩
  | some (_, s6) =>
  match doRead file 80 s6 with
  | none => ⟨none, s6.pos, s6.reads, [], 0⟩
  | some (_, s7) =>
  match doRead file 80 s7 with
  | none => ⟨none, s7.pos, s7.reads, [], 0⟩
  | some (b8, s8) =>
  if Recognize_Data_Header b8 ≠ .namestr then
    ⟨some .No_Namestr_Header, s8.pos, s8.reads, [], 0⟩
  else
  match stoull5 ((b8.drop 53).take 5) with
  | none => ⟨none, s8.pos, s8.reads, [], 0⟩
  | some cnt =>
  match readLoop file cnt s8 [] 0 0 with
  | (false, s9, vars, rlen, _) => ⟨none, s9.pos, s9.reads, vars, rlen⟩
  | (true, s9, vars, rlen, rcnt) =>
  match doRead file 80 ⟨s9.pos + padAfter rcnt, s9.reads⟩ with
  | none => ⟨none, s9.pos + padAfter rcnt, s9.reads, vars, rlen⟩
  | some (b11, s11) =>
  if Recognize_Data_Header b11 ≠ .observation then
    ⟨some .No_Observation_Header, s11.pos, s11.reads, vars, rlen⟩
  else ⟨some .Ok, s11.pos, s11.reads, vars, rlen⟩

/-- The reads the descriptor loop performs starting at position `p` for `n`
descriptor pairs: alternating 80- and 60-byte reads. -/
def descTrace : Nat → Nat → List (Nat × Nat)
  | _, 0 => []
  | p, n + 1 => (p, 80) :: (p + 80, 60) :: descTrace (p + 140) n

/-- The variables the descriptor loop parses starting at position `p`. -/
def descVars (file : List Nat) : Nat → Nat → List Variable_Record
  | _, 0 => []
  | p, n + 1 =>
    mkVariable ((file.drop p).take 80) ((file.drop (p + 80)).take 60)
      :: descVars file (p + 140) n

/-- A concrete 80-byte generic header block: 20 filler bytes, the 21-byte
signature, 12 filler bytes, the 5-byte count field at offsets 53-57, 22
filler bytes. -/
def mkHdr (sig : List Nat) (cnt5 : List Nat) : List Nat :=
  List.replicate 20 42 ++ sig ++ List.replicate 12 42 ++ cnt5 ++ List.replicate 22 42

/-- An 80-byte filler block carrying no recognizable signature. -/
def fillBlk : List Nat := List.replicate 80 70

/-- A concrete well-formed 880-byte XPT stream: the five headers in order,
the discarded sub-records, and one descriptor (`X`, Numeric, length 8)
whose `npos` field is 100 — far beyond the 8-byte record length the
descriptor table implies. -/
def fileX : List Nat :=
  mkHdr (strBytes "LIBRARY HEADER RECORD") (List.replicate 5 48)
    ++ fillBlk ++ fillBlk
    ++ mkHdr (strBytes "MEMBER  HEADER RECORD") (List.replicate 5 48)
    ++ mkHdr (strBytes "DSCRPTR HEADER RECORD") (List.replicate 5 48)
    ++ fillBlk ++ fillBlk
    ++ mkHdr (strBytes "NAMESTR HEADER RECORD") [48, 48, 48, 48, 49]
    ++ ([0, 1] ++ [0, 0] ++ [0, 8] ++ [0, 1] ++ (88 :: List.replicate 7 32)
      ++ List.replicate 40 32 ++ List.replicate 24 0)
    ++ ([0, 0, 0, 0] ++ [0, 0, 0, 100] ++ List.replicate 52 0)
    ++ List.replicate 20 0
    ++ mkHdr (strBytes "OBS     HEADER RECORD") (List.replicate 5 48)

end Xpt

namespace Xpt

/-! ## Bit-level helper lemmas -/

theorem two_pow_mul_mod_two (k a : Nat) (hk : 0 < k) : 2 ^ k * a % 2 = 0 := by
  obtain ⟨j, rfl⟩ : ∃ j, k = j + 1 := ⟨k - 1, by omega⟩
  rw [pow_succ, Nat.mul_assoc, Nat.mul_comm 2 a, ← Nat.mul_assoc, Nat.mul_mod_left]

theorem testBit_two_pow_mul (k a i : Nat) :
    (2 ^ k * a).testBit i = (decide (k ≤ i) && a.testBit (i - k)) := by
  rcases Nat.lt_or_ge i k with h | h
  · have h1 : 2 ^ k * a / 2 ^ i = 2 ^ (k - i) * a := by
      have hsplit : 2 ^ k = 2 ^ i * 2 ^ (k - i) := by
        rw [← pow_add]; congr 1; omega
      rw [hsplit, Nat.mul_assoc, Nat.mul_div_cancel_left _ (Nat.pos_pow_of_pos i (by norm_num))]
    have h2 : 2 ^ (k - i) * a % 2 = 0 := two_pow_mul_mod_two _ _ (by omega)
    simp [Nat.testBit_to_div_mod, h1, h2, Nat.not_le.mpr h]
  · have h1 : 2 ^ k * a / 2 ^ i = a / 2 ^ (i - k) := by
      have hsplit : 2 ^ i = 2 ^ k * 2 ^ (i - k) := by
        rw [← pow_add]; congr 1; omega
      rw [hsplit, ← Nat.div_div_eq_div_mul,
        Nat.mul_div_cancel_left _ (Nat.pos_pow_of_pos k (by norm_num))]
    simp [Nat.testBit_to_div_mod, h1, h]

theorem lor_two_pow_mul_add {k a b : Nat} (hb : b < 2 ^ k) :
    (2 ^ k * a) ||| b = 2 ^ k * a + b := by
  apply Nat.eq_of_testBit_eq
  intro i
  rcases Nat.lt_or_ge i k with h | h
  · have hdiv : (2 ^ k * a + b) / 2 ^ i % 2 = b / 2 ^ i % 2 := by
      have hsplit : 2 ^ k = 2 ^ i * 2 ^ (k - i) := by
        rw [← pow_add]; congr 1; omega
      have h1 : (2 ^ k * a + b) / 2 ^ i = 2 ^ (k - i) * a + b / 2 ^ i := by
        rw [hsplit, Nat.mul_assoc, Nat.add_comm, Nat.add_mul_div_left _ _
          (Nat.pos_pow_of_pos i (by norm_num)), Nat.add_comm]
      have h2 : 2 ^ (k - i) * a % 2 = 0 := two_pow_mul_mod_two _ _ (by omega)
      omega
    rw [Nat.testBit_lor, testBit_two_pow_mul]
    simp [Nat.testBit_to_div_mod, hdiv, Nat.not_le.mpr h]
  · have h1 : (2 ^ k * a + b) / 2 ^ i = a / 2 ^ (i - k) := by
      have hsplit : 2 ^ i = 2 ^ k * 2 ^ (i - k) := by
        rw [← pow_add]; congr 1; omega
      rw [hsplit, ← Nat.div_div_eq_div_mul, Nat.add_comm, Nat.add_mul_div_left _ _
        (Nat.pos_pow_of_pos k (by norm_num)), Nat.div_eq_of_lt hb, Nat.zero_add]
    have hbi : b.testBit i = false :=
      Nat.testBit_lt_two_pow (Nat.lt_of_lt_of_le hb (Nat.pow_le_pow_right (by norm_num) h))
    rw [Nat.testBit_lor, testBit_two_pow_mul, hbi]
    simp [Nat.testBit_to_div_mod, h1, h]

theorem lor3_disjoint {a e m : Nat} (ha : a < 2) (he : e < 2 ^ 11) (hm : m < 2 ^ 52) :
    a * 2 ^ 63 ||| e * 2 ^ 52 ||| m = a * 2 ^ 63 + e * 2 ^ 52 + m := by
  have h0 : a = 0 ∨ a = 1 := by omega
  rcases h0 with h | h <;> subst h
  · rw [Nat.zero_mul, Nat.zero_or, Nat.zero_add, Nat.mul_comm e, lor_two_pow_mul_add hm]
  · have h1 : (1 : Nat) * 2 ^ 63 = 2 ^ 63 * 1 := by ring
    rw [h1, lor_two_pow_mul_add (show e * 2 ^ 52 < 2 ^ 63 by omega)]
    have h2 : 2 ^ 63 * 1 + e * 2 ^ 52 = 2 ^ 52 * (2 ^ 11 + e) := by ring
    rw [h2, lor_two_pow_mul_add hm]

/-- Closed form of `IbmToIEEE`: the three fields are disjoint (the mantissa
field is below bit 52, the exponent value is always in `[763, 1274]` so its
field occupies bits 52-62, the sign is bit 63), hence the bitwise ors of the
assembly are plain sums. -/
theorem IbmToIEEE_fields (x : Nat) :
    IbmToIEEE x = x / 2 ^ 63 % 2 * 2 ^ 63
      + (4 * (x / 2 ^ 56 % 2 ^ 7) + ibmShift x + 763) * 2 ^ 52
      + x % 2 ^ 56 / 2 ^ ibmShift x % 2 ^ 52 := by
  have hE : x / 2 ^ 56 % 2 ^ 7 < 2 ^ 7 := Nat.mod_lt _ (by norm_num)
  have hs3 : ibmShift x ≤ 3 := by
    unfold ibmShift
    split <;> [skip; split] <;> [omega; omega; split] <;> omega
  have hm2 : x % 2 ^ 56 / 2 ^ ibmShift x < 2 ^ 53 := by
    unfold ibmShift
    split
    · omega
    · split
      · omega
      · split
        · omega
        · omega
  have hexp : ((x / 2 ^ 56 % 2 ^ 7 + (2 ^ 64 - 65)) % 2 ^ 64 * 4 % 2 ^ 64
      + ibmShift x + 1023) % 2 ^ 64 = 4 * (x / 2 ^ 56 % 2 ^ 7) + ibmShift x + 763 := by
    omega
  show (x / 2 ^ 63 % 2 * 2 ^ 63) |||
      ((x / 2 ^ 56 % 2 ^ 7 + (2 ^ 64 - 65)) % 2 ^ 64 * 4 % 2 ^ 64
        + ibmShift x + 1023) % 2 ^ 64 * 2 ^ 52 % 2 ^ 64 |||
      (x % 2 ^ 56 / 2 ^ ibmShift x % 2 ^ 52
        + x % 2 ^ 56 / 2 ^ ibmShift x / 2 ^ 53 * 2 ^ 53) = _
  rw [hexp]
  have hm0 : x % 2 ^ 56 / 2 ^ ibmShift x / 2 ^ 53 = 0 := Nat.div_eq_of_lt hm2
  rw [hm0, Nat.zero_mul, Nat.add_zero]
  have heb : (4 * (x / 2 ^ 56 % 2 ^ 7) + ibmShift x + 763) < 2 ^ 11 := by omega
  have hemod : (4 * (x / 2 ^ 56 % 2 ^ 7) + ibmShift x + 763) * 2 ^ 52 % 2 ^ 64
      = (4 * (x / 2 ^ 56 % 2 ^ 7) + ibmShift x + 763) * 2 ^ 52 :=
    Nat.mod_eq_of_lt (by omega)
  rw [hemod]
  have hm52 : x % 2 ^ 56 / 2 ^ ibmShift x % 2 ^ 52 < 2 ^ 52 := Nat.mod_lt _ (by norm_num)
  exact lor3_disjoint (by omega) heb hm52

/-- Claim C1: the spec demands that the all-zero 8-byte input maps to the
double `0.0` (IEEE bit pattern 0).  The code has no special case for zero:
on input 0 the `uint64_t` subtraction `exponent -= 65` wraps around, and the
function returns the bit pattern `0x2FB0000000000000`, which is the double
`2 ^ (-260)`, not `0.0`.  This theorem evaluates the embedded code at the
failing input. -/
theorem c1_ibmToIEEE_zero_eval :
    IbmToIEEE 0 = 0x2FB0000000000000 ∧ IbmToIEEE 0 ≠ 0 := by
  constructor
  · decide
  · decide

/-- Claim C2, counterexample: at the input `0x4110000000000001` (the IBM
encoding of a number just above 1.0; top mantissa nibble `0x1`, so the
spec's `shift` — the number of leading zero bits in the top nibble — is 3),
the IEEE exponent field actually produced by the code is 1023, while the
spec's formula `((ibmExponent - 64) * 4) + shift - 1 + 1023` gives 1029. -/
theorem c2_spec_formula_counterexample :
    0x4110000000000001 % 2 ^ 56 / 2 ^ 52 ≠ 0 ∧
    lzTopNibble 0x4110000000000001 = 3 ∧
    IbmToIEEE 0x4110000000000001 / 2 ^ 52 % 2 ^ 11 = 1023 ∧
    (0x4110000000000001 / 2 ^ 56 % 2 ^ 7 - 64) * 4
      + lzTopNibble 0x4110000000000001 - 1 + 1023 = 1029 ∧
    (1023 : Nat) ≠ 1029 := by
  refine ⟨by decide, by decide, by decide, by decide, by decide⟩

/-- Claim C2 (amended): for every 8-byte big-endian input with a nonzero top
mantissa nibble, with `shift` defined as 3 MINUS the number of leading zero
bits (0-3) within the top nibble of the 56-bit mantissa, the mantissa is
shifted right by `shift` bits and masked to 52 bits, and the resulting IEEE
exponent field equals `((ibmExponent - 64) * 4) + shift - 4 + 1023`, written
below in the Nat-safe form `4 * ibmExponent + shift + 763`; the sign bit is
preserved. -/
theorem c2_amended_normalization (x : Nat) (hx : x < 2 ^ 64)
    (hnib : x % 2 ^ 56 / 2 ^ 52 ≠ 0) :
    ibmShift x = 3 - lzTopNibble x ∧
    IbmToIEEE x / 2 ^ 52 % 2 ^ 11
      = 4 * (x / 2 ^ 56 % 2 ^ 7) + (3 - lzTopNibble x) + 763 ∧
    IbmToIEEE x % 2 ^ 52 = x % 2 ^ 56 / 2 ^ (3 - lzTopNibble x) % 2 ^ 52 ∧
    IbmToIEEE x / 2 ^ 63 = x / 2 ^ 63 := by
  have hshift : ibmShift x = 3 - lzTopNibble x := by
    simp only [ibmShift, lzTopNibble]
    split_ifs <;> rfl
  have hf := IbmToIEEE_fields x
  have hE : x / 2 ^ 56 % 2 ^ 7 < 2 ^ 7 := Nat.mod_lt _ (by norm_num)
  have hs3 : ibmShift x ≤ 3 := by
    unfold ibmShift
    split <;> [skip; split] <;> [omega; omega; split] <;> omega
  have hm : x % 2 ^ 56 / 2 ^ ibmShift x % 2 ^ 52 < 2 ^ 52 := Nat.mod_lt _ (by norm_num)
  refine ⟨hshift, ?_, ?_, ?_⟩ <;> (try rw [← hshift]) <;> omega

/-- Witness for the amended C2 at the concrete input
`0x4110000000000001`. -/
theorem c2_amended_normalization_witness :
    (0x4110000000000001 : Nat) < 2 ^ 64 ∧
    0x4110000000000001 % 2 ^ 56 / 2 ^ 52 ≠ 0 ∧
    IbmToIEEE 0x4110000000000001 / 2 ^ 52 % 2 ^ 11
      = 4 * (0x4110000000000001 / 2 ^ 56 % 2 ^ 7)
        + (3 - lzTopNibble 0x4110000000000001) + 763 :=
  ⟨by decide, by decide,
    (c2_amended_normalization 0x4110000000000001 (by decide) (by decide)).2.1⟩

/-! ## The positional row decoder: claims C4 and C5 -/

theorem fillRow_length (vars : List Variable_Record) (data : List Nat) :
    ∀ (fuel i : Nat) (target : List TValue),
      (fillRow vars data fuel i target).length = target.length := by
  intro fuel
  induction fuel with
  | zero =>
    intro i target
    rfl
  | succ n ih =>
    intro i target
    by_cases hi : i < vars.length
    · show (if h : i < vars.length then _ else target).length = _
      rw [dif_pos hi, ih]
      split_ifs <;> simp [List.length_set]
    · show (if h : i < vars.length then _ else target).length = _
      rw [dif_neg hi]

theorem fillRow_get (vars : List Variable_Record) (data : List Nat) :
    ∀ (fuel i : Nat) (target : List TValue), vars.length - i ≤ fuel →
      target.length = vars.length →
      ∀ (j : Nat) (mvar : Variable_Record), vars[j]? = some mvar →
        (fillRow vars data fuel i target)[j]? =
          if j < i then target[j]?
          else if mvar.type = 1 then
            some (TValue.vnum (IbmToIEEE (getU64 data mvar.position)))
          else if mvar.type = 2 then
            some (TValue.vstr (getStr data mvar.position mvar.length))
          else target[j]? := by
  intro fuel
  induction fuel with
  | zero =>
    intro i target h hlen j mvar hj
    have hjlen : j < vars.length := by
      by_contra hc
      rw [List.getElem?_eq_none (by omega)] at hj
      exact Option.noConfusion hj
    rw [if_pos (show j < i by omega)]
    rfl
  | succ n ih =>
    intro i target h hlen j mvar hj
    have hjlen : j < vars.length := by
      by_contra hc
      rw [List.getElem?_eq_none (by omega)] at hj
      exact Option.noConfusion hj
    show (if hcond : i < vars.length then _ else target)[j]? = _
    by_cases hi : i < vars.length
    · rw [dif_pos hi]
      have hlen2 : (if vars[i].type = 1 then
            target.set i (TValue.vnum (IbmToIEEE (getU64 data vars[i].position)))
          else if vars[i].type = 2 then
            target.set i (TValue.vstr (getStr data vars[i].position vars[i].length))
          else target).length = vars.length := by
        split_ifs <;> simp [List.length_set, hlen]
      rw [ih (i + 1) _ (by omega) hlen2 j mvar hj]
      rcases Nat.lt_trichotomy j i with hc | hc | hc
      · have hT2 : (if vars[i].type = 1 then
              target.set i (TValue.vnum (IbmToIEEE (getU64 data vars[i].position)))
            else if vars[i].type = 2 then
              target.set i (TValue.vstr (getStr data vars[i].position vars[i].length))
            else target)[j]? = target[j]? := by
          split_ifs <;> first | exact List.getElem?_set_ne (by omega) | rfl
        rw [if_pos (show j < i + 1 by omega), if_pos hc, hT2]
      · subst hc
        have hmv : vars[j] = mvar := by
          rw [List.getElem?_eq_getElem hi] at hj
          exact Option.some.inj hj
        rw [if_pos (show j < j + 1 by omega), if_neg (show ¬ j < j by omega), ← hmv]
        split_ifs with h1 h2
        · exact List.getElem?_set_self (by omega)
        · exact List.getElem?_set_self (by omega)
        · rfl
      · have hT2 : (if vars[i].type = 1 then
              target.set i (TValue.vnum (IbmToIEEE (getU64 data vars[i].position)))
            else if vars[i].type = 2 then
              target.set i (TValue.vstr (getStr data vars[i].position vars[i].length))
            else target)[j]? = target[j]? := by
          split_ifs <;> first | exact List.getElem?_set_ne (by omega) | rfl
        rw [if_neg (show ¬ j < i + 1 by omega), if_neg (show ¬ j < i by omega), hT2]
    · rw [dif_neg hi]
      rw [if_pos (show j < i by omega)]

/-- Claim C4, counterexample: with a single numeric 16-byte variable (record
length 16), a stream holding only 5 bytes — a mid-row truncation, part of
the next row present — makes `Read_Next` return `none` (the C++ `false`),
exactly the same observable result as the clean row-boundary case of a
stream with no bytes at all.  The C++ `Read_Next` returns `bool` and has no
other failure channel, so the mid-row truncation is reported as end-of-data,
not as a distinct hard failure. -/
theorem c4_midrow_truncation_counterexample :
    Read_Next [⟨[65], [], 1, 16, 1, 0⟩] 16 [1, 2, 3, 4, 5] 0 = none ∧
    Read_Next [⟨[65], [], 1, 16, 1, 0⟩] 16 [] 0 = none := by
  constructor <;> rfl

/-- Claim C4 (amended): `Read_Next` returns end-of-data (`false`, here
`none`) exactly when fewer than `recordLength` bytes remain from the current
position — whether the shortfall is at a row boundary (no bytes of the next
row) or mid-row; a mid-row truncation is reported as the same end-of-data
result, never as a distinct hard failure. -/
theorem c4_amended_read_next_eof (vars : List Variable_Record) (recLen : Nat)
    (file : List Nat) (pos : Nat) :
    Read_Next vars recLen file pos = none ↔ file.length < pos + recLen := by
  by_cases hp : pos + recLen ≤ file.length <;>
    simp [Read_Next, readBytes, hp] <;> omega

/-- Claim C5: a successful positional `Read_Next` over a table of N
descriptors produces exactly N TypedValues, in table order: every Numeric
(type 1) descriptor yields the double obtained by the IBM-to-IEEE codec from
the 8 big-endian bytes at its offset in the row buffer, and every String
(type 2) descriptor yields the trimmed text of `byteLength` bytes at its
offset.  The well-formedness hypothesis `hwf` expresses the bound the C++
`std::copy` calls need to be defined behavior. -/
theorem c5_positional_decode (vars : List Variable_Record) (recLen : Nat)
    (file : List Nat) (pos : Nat) (row : List TValue)
    (hwf : ∀ mvar ∈ vars,
      mvar.position + (if mvar.type = 1 then 8 else mvar.length) ≤ recLen)
    (h : Read_Next vars recLen file pos = some row) :
    row.length = vars.length ∧
    ∀ (j : Nat) (mvar : Variable_Record), vars[j]? = some mvar →
      (mvar.type = 1 → row[j]? = some (TValue.vnum
        (IbmToIEEE (getU64 ((file.drop pos).take recLen) mvar.position)))) ∧
      (mvar.type = 2 → row[j]? = some (TValue.vstr
        (getStr ((file.drop pos).take recLen) mvar.position mvar.length))) := by
  unfold Read_Next at h
  split at h
  · exact Option.noConfusion h
  · rename_i data hbs
    have hdata : data = (file.drop pos).take recLen := by
      unfold readBytes at hbs
      split at hbs
      · exact (Option.some.inj hbs).symm
      · exact Option.noConfusion hbs
    have hrow : row
        = fillRow vars data vars.length 0 (List.replicate vars.length (TValue.vstr [])) :=
      (Option.some.inj h).symm
    subst hrow
    subst hdata
    constructor
    · rw [fillRow_length, List.length_replicate]
    · intro j mvar hj
      have hget := fillRow_get vars ((file.drop pos).take recLen) vars.length 0
        (List.replicate vars.length (TValue.vstr [])) (by omega)
        (by rw [List.length_replicate]) j mvar hj
      rw [if_neg (by omega)] at hget
      constructor
      · intro h1
        rw [hget, if_pos h1]
      · intro h2
        by_cases h1 : mvar.type = 1
        · omega
        · rw [hget, if_neg h1, if_pos h2]

/-! ## The coerced decoder: claims C6 and C10 -/

theorem Fetch_Columns_ok_get (vars : List Variable_Record) (data : List Nat) :
    ∀ (rest : List SlotTy) (origCnt : Nat) (out : List CVal),
      rest.length ≤ origCnt →
      Fetch_Columns vars data origCnt rest = .ok out →
      out.length = rest.length ∧
      ∀ (j : Nat) (slot : SlotTy), rest[j]? = some slot →
        ∃ v, out[j]? = some v ∧
          Fetch_Column_Idx vars data (origCnt - rest.length + j) slot = .ok v := by
  intro rest
  induction rest with
  | nil =>
    intro origCnt out hle h
    have hout : out = [] := by
      simp only [Fetch_Columns] at h
      exact (Except.ok.inj h).symm
    subst hout
    refine ⟨rfl, ?_⟩
    intro j slot hj
    simp at hj
  | cons slot rest ih =>
    intro origCnt out hle h
    simp only [List.length_cons] at hle
    simp only [Fetch_Columns] at h
    rcases hf : Fetch_Column_Idx vars data (origCnt - (rest.length + 1)) slot with e | v
    · rw [hf] at h
      exact absurd h (by simp)
    · rw [hf] at h
      rcases hr : Fetch_Columns vars data origCnt rest with e | vs
      · rw [hr] at h
        exact absurd h (by simp)
      · rw [hr] at h
        have hout : out = v :: vs := (Except.ok.inj h).symm
        subst hout
        obtain ⟨hlen, hidx⟩ := ih origCnt vs (by omega) hr
        refine ⟨by simp [hlen], ?_⟩
        intro j slot2 hj
        cases j with
        | zero =>
          rw [List.getElem?_cons_zero] at hj
          have hslot : slot2 = slot := (Option.some.inj hj).symm
          rw [hslot]
          refine ⟨v, List.getElem?_cons_zero, ?_⟩
          have heq : origCnt - (slot :: rest).length + 0 = origCnt - (rest.length + 1) := by
            simp only [List.length_cons]
            omega
          rw [heq, hf]
        | succ j2 =>
          rw [List.getElem?_cons_succ] at hj
          obtain ⟨v2, hv2, hfv2⟩ := hidx j2 slot2 hj
          refine ⟨v2, by simpa using hv2, ?_⟩
          have heq : origCnt - (slot :: rest).length + (j2 + 1)
              = origCnt - rest.length + j2 := by
            simp only [List.length_cons]
            omega
          rw [heq, hfv2]

theorem Fetch_Column_Idx_no_oob (vars : List Variable_Record) (data : List Nat)
    (argIdx : Nat) (slot : SlotTy) (h : argIdx < vars.length) :
    Fetch_Column_Idx vars data argIdx slot ≠ .error .oob := by
  unfold Fetch_Column_Idx
  rw [List.getElem?_eq_getElem h]
  cases slot
  · by_cases ht : vars[argIdx].type = 1
    · simp [ht]
    · simp only [ht, if_false]
      rcases hs : stod (getStr data vars[argIdx].position vars[argIdx].length) with _ | q
      · simp [hs]
      · simp [hs]
  · by_cases ht : vars[argIdx].type = 2
    · simp [ht]
    · simp [ht]

theorem Fetch_Column_Idx_oob (vars : List Variable_Record) (data : List Nat)
    (argIdx : Nat) (slot : SlotTy) (h : vars.length ≤ argIdx) :
    Fetch_Column_Idx vars data argIdx slot = .error .oob := by
  unfold Fetch_Column_Idx
  rw [List.getElem?_eq_none h]

theorem Fetch_Columns_no_oob (vars : List Variable_Record) (data : List Nat) :
    ∀ (rest : List SlotTy) (origCnt : Nat), rest.length ≤ origCnt →
      origCnt ≤ vars.length →
      Fetch_Columns vars data origCnt rest ≠ .error .oob := by
  intro rest
  induction rest with
  | nil =>
    intro o h1 h2
    simp [Fetch_Columns]
  | cons slot rest ih =>
    intro o h1 h2
    simp only [List.length_cons] at h1
    simp only [Fetch_Columns]
    rcases hf : Fetch_Column_Idx vars data (o - (rest.length + 1)) slot with e | v
    · have hidx : o - (rest.length + 1) < vars.length := by omega
      have hne := Fetch_Column_Idx_no_oob vars data (o - (rest.length + 1)) slot hidx
      rw [hf] at hne
      simpa using hne
    · rcases hr : Fetch_Columns vars data o rest with e | vs
      · have hne := ih o (by omega) h2
        rw [hr] at hne
        simpa using hne
      · simp

/-- Claim C10: the coerced (variadic) `Read_Next` indexes the descriptor
table by slot position with no bounds check.  First conjunct: with at most
as many slots as variables, no fetch performs an out-of-range access.
Second conjunct: a fetch at a position not below the variable count is
exactly the access `mVariables[argIdx]` outside the vector.  Third
conjunct: with more slots than variables the call can never succeed — its
last slot's access falls outside the vector. -/
theorem c10_coerced_bounds (vars : List Variable_Record) (data : List Nat)
    (slots : List SlotTy) :
    (slots.length ≤ vars.length →
      Fetch_Columns vars data slots.length slots ≠ .error .oob) ∧
    (∀ (argIdx : Nat) (slot : SlotTy), vars.length ≤ argIdx →
      Fetch_Column_Idx vars data argIdx slot = .error .oob) ∧
    (vars.length < slots.length →
      ∀ out, Fetch_Columns vars data slots.length slots ≠ .ok out) := by
  refine ⟨?_, ?_, ?_⟩
  · intro hle
    exact Fetch_Columns_no_oob vars data slots slots.length (le_refl _) hle
  · intro argIdx slot h
    exact Fetch_Column_Idx_oob vars data argIdx slot h
  · intro hlt out hok
    obtain ⟨hlen, hidx⟩ :=
      Fetch_Columns_ok_get vars data slots slots.length out (le_refl _) hok
    have hne : slots.length - 1 < slots.length := by omega
    obtain ⟨v, hv, hfv⟩ := hidx (slots.length - 1) slots[slots.length - 1]
      (List.getElem?_eq_getElem hne)
    have heq : slots.length - slots.length + (slots.length - 1) = slots.length - 1 := by
      omega
    rw [heq] at hfv
    have hoob := Fetch_Column_Idx_oob vars data (slots.length - 1)
      slots[slots.length - 1] (by omega)
    rw [hoob] at hfv
    exact absurd hfv (by simp)

/-- Claim C6: in the coerced `Read_Next`, a `double` slot matched against a
String (non-Numeric) column yields the decimal number `std::stod` parses
from the trimmed cell text; when the trimmed text has no parseable number,
the call fails with the coercion error propagated immediately (it can never
return a row), so no default value is ever substituted. -/
theorem c6_string_column_double_slot (vars : List Variable_Record)
    (data : List Nat) (slots : List SlotTy) (j : Nat) (mvar : Variable_Record)
    (hs : slots[j]? = some SlotTy.double) (hv : vars[j]? = some mvar)
    (ht : mvar.type ≠ 1) (hwf : mvar.position + mvar.length ≤ data.length) :
    (∀ out, Fetch_Columns vars data slots.length slots = .ok out →
      ∃ q, stod (getStr data mvar.position mvar.length) = some q ∧
        out[j]? = some (CVal.numFromStr q)) ∧
    (stod (getStr data mvar.position mvar.length) = none →
      ∀ out, Fetch_Columns vars data slots.length slots ≠ .ok out) := by
  have hmain : ∀ out, Fetch_Columns vars data slots.length slots = .ok out →
      ∃ q, stod (getStr data mvar.position mvar.length) = some q ∧
        out[j]? = some (CVal.numFromStr q) := by
    intro out hok
    obtain ⟨hlen, hidx⟩ :=
      Fetch_Columns_ok_get vars data slots slots.length out (le_refl _) hok
    obtain ⟨v, hvout, hfv⟩ := hidx j SlotTy.double hs
    have heq : slots.length - slots.length + j = j := by omega
    rw [heq] at hfv
    unfold Fetch_Column_Idx at hfv
    rw [hv] at hfv
    simp only [if_neg ht] at hfv
    rcases hq : stod (getStr data mvar.position mvar.length) with _ | q
    · rw [hq] at hfv
      exact absurd hfv (by simp)
    · rw [hq] at hfv
      have hvq : v = CVal.numFromStr q := (Except.ok.inj hfv).symm
      subst hvq
      exact ⟨q, rfl, hvout⟩
  refine ⟨hmain, ?_⟩
  intro hnone out hok
  obtain ⟨q, hq, _⟩ := hmain out hok
  rw [hnone] at hq
  exact Option.noConfusion hq

/-- Witness for C6: a one-column session whose String column holds
"  42.5  " fetched into a `double` slot yields exactly 42.5; with "abc" in
the cell the fetch can never return a row. -/
theorem c6_string_column_double_slot_witness :
    ([SlotTy.double][0]? = some SlotTy.double ∧
      [Variable_Record.mk [86] [] 2 8 1 0][0]? = some (Variable_Record.mk [86] [] 2 8 1 0) ∧
      (Variable_Record.mk [86] [] 2 8 1 0).type ≠ 1 ∧
      (∃ q, stod (getStr [32, 32, 52, 50, 46, 53, 32, 32] 0 8) = some q ∧
        [CVal.numFromStr (85 / 2 : ℚ)][0]? = some (CVal.numFromStr q))) ∧
    (∀ out, Fetch_Columns [Variable_Record.mk [86] [] 2 8 1 0]
      [97, 98, 99, 32, 32, 32, 32, 32] 1 [SlotTy.double] ≠ .ok out) :=
  ⟨⟨by decide, by decide, by decide,
    (c6_string_column_double_slot
      [Variable_Record.mk [86] [] 2 8 1 0] [32, 32, 52, 50, 46, 53, 32, 32]
      [SlotTy.double] 0 (Variable_Record.mk [86] [] 2 8 1 0)
      (by decide) (by decide) (by decide) (by decide)).1
      [CVal.numFromStr (85 / 2 : ℚ)] (by
        norm_num [Fetch_Columns, Fetch_Column_Idx, getStr, dropTrailing, isSpaceByte,
          stod, stodExp, stodExpSigned, scalePow10, digitsVal, isDigitByte])⟩,
    (c6_string_column_double_slot
      [Variable_Record.mk [86] [] 2 8 1 0] [97, 98, 99, 32, 32, 32, 32, 32]
      [SlotTy.double] 0 (Variable_Record.mk [86] [] 2 8 1 0)
      (by decide) (by decide) (by decide) (by decide)).2 (by decide)⟩

/-! ## The header reader: claims C3, C7, C8 and C9 -/

theorem doRead_ok (file : List Nat) (n p q : Nat) (rs rs2 : List (Nat × Nat))
    (hpq : p + n = q) (hrs : rs ++ [(p, n)] = rs2) (h : q ≤ file.length) :
    doRead file n ⟨p, rs⟩ = some ((file.drop p).take n, ⟨q, rs2⟩) := by
  subst hpq
  subst hrs
  simp [doRead, readBytes, h]

theorem readLoop_spec (file : List Nat) :
    ∀ (cnt p : Nat) (rs : List (Nat × Nat)) (vars : List Variable_Record)
      (rlen rcnt : Nat), p + 140 * cnt ≤ file.length →
      readLoop file cnt ⟨p, rs⟩ vars rlen rcnt =
        (true, ⟨p + 140 * cnt, rs ++ descTrace p cnt⟩,
         vars ++ descVars file p cnt,
         rlen + ((descVars file p cnt).map Variable_Record.length).sum,
         rcnt + 140 * cnt) := by
  intro cnt
  induction cnt with
  | zero =>
    intro p rs vars rlen rcnt h
    simp [readLoop, descTrace, descVars]
  | succ n ih =>
    intro p rs vars rlen rcnt h
    have d1 := doRead_ok file 80 p (p + 80) rs (rs ++ [(p, 80)]) rfl rfl (by omega)
    have d2 := doRead_ok file 60 (p + 80) (p + 140) (rs ++ [(p, 80)])
      (rs ++ [(p, 80), (p + 80, 60)]) (by omega) (by simp) (by omega)
    simp only [readLoop, d1, d2]
    rw [ih]
    · simp only [descTrace, descVars, List.map_cons, List.sum_cons, Prod.mk.injEq,
        RState.mk.injEq, List.append_assoc, List.cons_append, List.nil_append,
        List.singleton_append]
      refine ⟨?_, ⟨?_, ?_⟩, ?_, ?_, ?_⟩ <;> first | trivial | omega
    · omega

theorem Read_Headers_run (file : List Nat) (cnt : Nat)
    (h1 : Recognize_Data_Header (file.take 80) = .library)
    (h2 : Recognize_Data_Header ((file.drop 240).take 80) = .member)
    (h3 : Recognize_Data_Header ((file.drop 320).take 80) = .descriptor)
    (h4 : Recognize_Data_Header ((file.drop 560).take 80) = .namestr)
    (hc : stoull5 ((((file.drop 560).take 80).drop 53).take 5) = some cnt)
    (hlen : 640 + 140 * cnt + padAfter (140 * cnt) + 80 ≤ file.length) :
    Read_Headers file =
      if Recognize_Data_Header
          ((file.drop (640 + 140 * cnt + padAfter (140 * cnt))).take 80)
          ≠ Header_Signature.observation then
        ⟨some .No_Observation_Header, 640 + 140 * cnt + padAfter (140 * cnt) + 80,
         [(0, 80), (80, 80), (160, 80), (240, 80), (320, 80), (400, 80), (480, 80),
           (560, 80)] ++ descTrace 640 cnt
           ++ [(640 + 140 * cnt + padAfter (140 * cnt), 80)],
         descVars file 640 cnt,
         ((descVars file 640 cnt).map Variable_Record.length).sum⟩
      else
        ⟨some .Ok, 640 + 140 * cnt + padAfter (140 * cnt) + 80,
         [(0, 80), (80, 80), (160, 80), (240, 80), (320, 80), (400, 80), (480, 80),
           (560, 80)] ++ descTrace 640 cnt
           ++ [(640 + 140 * cnt + padAfter (140 * cnt), 80)],
         descVars file 640 cnt,
         ((descVars file 640 cnt).map Variable_Record.length).sum⟩ := by
  have d1 := doRead_ok file 80 0 80 [] [(0, 80)] (by omega) (by simp) (by omega)
  have d2 := doRead_ok file 80 80 160 [(0, 80)] [(0, 80), (80, 80)]
    (by omega) (by simp) (by omega)
  have d3 := doRead_ok file 80 160 240 [(0, 80), (80, 80)]
    [(0, 80), (80, 80), (160, 80)] (by omega) (by simp) (by omega)
  have d4 := doRead_ok file 80 240 320 [(0, 80), (80, 80), (160, 80)]
    [(0, 80), (80, 80), (160, 80), (240, 80)] (by omega) (by simp) (by omega)
  have d5 := doRead_ok file 80 320 400 [(0, 80), (80, 80), (160, 80), (240, 80)]
    [(0, 80), (80, 80), (160, 80), (240, 80), (320, 80)] (by omega) (by simp) (by omega)
  have d6 := doRead_ok file 80 400 480
    [(0, 80), (80, 80), (160, 80), (240, 80), (320, 80)]
    [(0, 80), (80, 80), (160, 80), (240, 80), (320, 80), (400, 80)]
    (by omega) (by simp) (by omega)
  have d7 := doRead_ok file 80 480 560
    [(0, 80), (80, 80), (160, 80), (240, 80), (320, 80), (400, 80)]
    [(0, 80), (80, 80), (160, 80), (240, 80), (320, 80), (400, 80), (480, 80)]
    (by omega) (by simp) (by omega)
  have d8 := doRead_ok file 80 560 640
    [(0, 80), (80, 80), (160, 80), (240, 80), (320, 80), (400, 80), (480, 80)]
    [(0, 80), (80, 80), (160, 80), (240, 80), (320, 80), (400, 80), (480, 80), (560, 80)]
    (by omega) (by simp) (by omega)
  have hloop := readLoop_spec file cnt 640
    [(0, 80), (80, 80), (160, 80), (240, 80), (320, 80), (400, 80), (480, 80), (560, 80)]
    [] 0 0 (by omega)
  have dObs := doRead_ok file 80 (640 + 140 * cnt + padAfter (140 * cnt))
    (640 + 140 * cnt + padAfter (140 * cnt) + 80)
    ([(0, 80), (80, 80), (160, 80), (240, 80), (320, 80), (400, 80), (480, 80),
      (560, 80)] ++ descTrace 640 cnt)
    ([(0, 80), (80, 80), (160, 80), (240, 80), (320, 80), (400, 80), (480, 80),
      (560, 80)] ++ descTrace 640 cnt
      ++ [(640 + 140 * cnt + padAfter (140 * cnt), 80)])
    rfl (by simp) hlen
  simp only [Read_Headers, List.drop_zero, d1, d2, d3, d4, d5, d6, d7, d8, h1, h2, h3,
    h4, hc, hloop, dObs, List.nil_append, Nat.zero_add, ne_eq, eq_self_iff_true,
    not_true, if_false, ite_false, reduceIte]

theorem readLoop_sum (file : List Nat) :
    ∀ (cnt : Nat) (s : RState) (vars0 : List Variable_Record) (rlen0 rcnt0 : Nat)
      (b : Bool) (s2 : RState) (vars2 : List Variable_Record) (rlen2 rcnt2 : Nat),
      readLoop file cnt s vars0 rlen0 rcnt0 = (b, s2, vars2, rlen2, rcnt2) →
      ∃ newVs, vars2 = vars0 ++ newVs ∧
        rlen2 = rlen0 + (newVs.map Variable_Record.length).sum := by
  intro cnt
  induction cnt with
  | zero =>
    intro s vars0 rlen0 rcnt0 b s2 vars2 rlen2 rcnt2 h
    simp only [readLoop, Prod.mk.injEq] at h
    obtain ⟨-, -, hv, hr, -⟩ := h
    subst hv
    subst hr
    exact ⟨[], by simp, by simp⟩
  | succ n ih =>
    intro s vars0 rlen0 rcnt0 b s2 vars2 rlen2 rcnt2 h
    simp only [readLoop] at h
    rcases hd1 : doRead file 80 s with _ | ⟨b1, s1⟩
    · simp only [hd1, Prod.mk.injEq] at h
      obtain ⟨-, -, hv, hr, -⟩ := h
      subst hv
      subst hr
      exact ⟨[], by simp, by simp⟩
    · simp only [hd1] at h
      rcases hd2 : doRead file 60 s1 with _ | ⟨b2, s2x⟩
      · simp only [hd2, Prod.mk.injEq] at h
        obtain ⟨-, -, hv, hr, -⟩ := h
        subst hv
        subst hr
        exact ⟨[], by simp, by simp⟩
      · simp only [hd2] at h
        obtain ⟨newVs, hv, hr⟩ := ih _ _ _ _ _ _ _ _ _ h
        refine ⟨mkVariable b1 b2 :: newVs, ?_, ?_⟩
        · rw [hv]
          simp
        · rw [hr]
          simp only [List.map_cons, List.sum_cons]
          omega

/-- For every input stream whatever, the `mRecord_Len` left by `Read_Headers`
is the sum of the lengths of the `mVariables` it left, because the loop adds
`nlng` to the one exactly when it appends to the other. -/
theorem Read_Headers_recLen_sum (file : List Nat) :
    (Read_Headers file).recLen
      = ((Read_Headers file).vars.map Variable_Record.length).sum := by
  unfold Read_Headers
  split
  · rfl
  split
  · rfl
  split
  · rfl
  split
  · rfl
  split
  · rfl
  split
  · rfl
  split
  · rfl
  split
  · rfl
  split
  · rfl
  split
  · rfl
  split
  · rfl
  split
  · rfl
  split
  · rfl
  split
  next s9 vars rlen rcnt heqL =>
    obtain ⟨newVs, hv, hr⟩ := readLoop_sum file _ _ _ _ _ _ _ _ _ _ heqL
    subst hv
    subst hr
    simp
  next s9 vars rlen rcnt heqL =>
    obtain ⟨newVs, hv, hr⟩ := readLoop_sum file _ _ _ _ _ _ _ _ _ _ heqL
    subst hv
    subst hr
    split
    · simp
    split
    · simp
    · simp

set_option maxRecDepth 200000 in
/-- The exact outcome of `Read_Headers` on the concrete stream `fileX`:
a successful run whose one descriptor has offset 100 and length 8, with the
full trace of reads. -/
theorem Read_Headers_fileX :
    Read_Headers fileX =
      ⟨some NStatus.Ok, 880,
       [(0, 80), (80, 80), (160, 80), (240, 80), (320, 80), (400, 80), (480, 80),
         (560, 80), (640, 80), (720, 60), (800, 80)],
       [⟨[88], [], 1, 8, 1, 100⟩], 8⟩ := by
  decide

/-- Claim C3: at each of the five header stages, a block that does not carry
the stage's expected signature makes `Read_Headers` return exactly the
corresponding one of the five distinct statuses, and the trace of reads ends
at the mismatching block — no further reads are performed. -/
theorem c3_header_stage_errors (file : List Nat) :
    (80 ≤ file.length →
      Recognize_Data_Header (file.take 80) ≠ Header_Signature.library →
      Read_Headers file = ⟨some .No_Library_Header, 80, [(0, 80)], [], 0⟩) ∧
    (320 ≤ file.length →
      Recognize_Data_Header (file.take 80) = Header_Signature.library →
      Recognize_Data_Header ((file.drop 240).take 80) ≠ Header_Signature.member →
      Read_Headers file = ⟨some .No_Member_Header, 320,
        [(0, 80), (80, 80), (160, 80), (240, 80)], [], 0⟩) ∧
    (400 ≤ file.length →
      Recognize_Data_Header (file.take 80) = Header_Signature.library →
      Recognize_Data_Header ((file.drop 240).take 80) = Header_Signature.member →
      Recognize_Data_Header ((file.drop 320).take 80) ≠ Header_Signature.descriptor →
      Read_Headers file = ⟨some .No_Descriptor_Header, 400,
        [(0, 80), (80, 80), (160, 80), (240, 80), (320, 80)], [], 0⟩) ∧
    (640 ≤ file.length →
      Recognize_Data_Header (file.take 80) = Header_Signature.library →
      Recognize_Data_Header ((file.drop 240).take 80) = Header_Signature.member →
      Recognize_Data_Header ((file.drop 320).take 80) = Header_Signature.descriptor →
      Recognize_Data_Header ((file.drop 560).take 80) ≠ Header_Signature.namestr →
      Read_Headers file = ⟨some .No_Namestr_Header, 640,
        [(0, 80), (80, 80), (160, 80), (240, 80), (320, 80), (400, 80), (480, 80),
          (560, 80)], [], 0⟩) ∧
    (∀ cnt : Nat,
      Recognize_Data_Header (file.take 80) = Header_Signature.library →
      Recognize_Data_Header ((file.drop 240).take 80) = Header_Signature.member →
      Recognize_Data_Header ((file.drop 320).take 80) = Header_Signature.descriptor →
      Recognize_Data_Header ((file.drop 560).take 80) = Header_Signature.namestr →
      stoull5 ((((file.drop 560).take 80).drop 53).take 5) = some cnt →
      640 + 140 * cnt + padAfter (140 * cnt) + 80 ≤ file.length →
      Recognize_Data_Header
        ((file.drop (640 + 140 * cnt + padAfter (140 * cnt))).take 80)
        ≠ Header_Signature.observation →
      Read_Headers file = ⟨some .No_Observation_Header,
        640 + 140 * cnt + padAfter (140 * cnt) + 80,
        [(0, 80), (80, 80), (160, 80), (240, 80), (320, 80), (400, 80), (480, 80),
          (560, 80)] ++ descTrace 640 cnt
          ++ [(640 + 140 * cnt + padAfter (140 * cnt), 80)],
        descVars file 640 cnt,
        ((descVars file 640 cnt).map Variable_Record.length).sum⟩) := by
  refine ⟨?_, ?_, ?_, ?_, ?_⟩
  · intro hl hm
    have d1 := doRead_ok file 80 0 80 [] [(0, 80)] (by omega) (by simp) (by omega)
    simp [Read_Headers, d1, hm]
  · intro hl ha hm
    have d1 := doRead_ok file 80 0 80 [] [(0, 80)] (by omega) (by simp) (by omega)
    have d2 := doRead_ok file 80 80 160 [(0, 80)] [(0, 80), (80, 80)]
      (by omega) (by simp) (by omega)
    have d3 := doRead_ok file 80 160 240 [(0, 80), (80, 80)]
      [(0, 80), (80, 80), (160, 80)] (by omega) (by simp) (by omega)
    have d4 := doRead_ok file 80 240 320 [(0, 80), (80, 80), (160, 80)]
      [(0, 80), (80, 80), (160, 80), (240, 80)] (by omega) (by simp) (by omega)
    simp [Read_Headers, d1, d2, d3, d4, ha, hm]
  · intro hl ha hb hm
    have d1 := doRead_ok file 80 0 80 [] [(0, 80)] (by omega) (by simp) (by omega)
    have d2 := doRead_ok file 80 80 160 [(0, 80)] [(0, 80), (80, 80)]
      (by omega) (by simp) (by omega)
    have d3 := doRead_ok file 80 160 240 [(0, 80), (80, 80)]
      [(0, 80), (80, 80), (160, 80)] (by omega) (by simp) (by omega)
    have d4 := doRead_ok file 80 240 320 [(0, 80), (80, 80), (160, 80)]
      [(0, 80), (80, 80), (160, 80), (240, 80)] (by omega) (by simp) (by omega)
    have d5 := doRead_ok file 80 320 400 [(0, 80), (80, 80), (160, 80), (240, 80)]
      [(0, 80), (80, 80), (160, 80), (240, 80), (320, 80)] (by omega) (by simp) (by omega)
    simp [Read_Headers, d1, d2, d3, d4, d5, ha, hb, hm]
  · intro hl ha hb hc2 hm
    have d1 := doRead_ok file 80 0 80 [] [(0, 80)] (by omega) (by simp) (by omega)
    have d2 := doRead_ok file 80 80 160 [(0, 80)] [(0, 80), (80, 80)]
      (by omega) (by simp) (by omega)
    have d3 := doRead_ok file 80 160 240 [(0, 80), (80, 80)]
      [(0, 80), (80, 80), (160, 80)] (by omega) (by simp) (by omega)
    have d4 := doRead_ok file 80 240 320 [(0, 80), (80, 80), (160, 80)]
      [(0, 80), (80, 80), (160, 80), (240, 80)] (by omega) (by simp) (by omega)
    have d5 := doRead_ok file 80 320 400 [(0, 80), (80, 80), (160, 80), (240, 80)]
      [(0, 80), (80, 80), (160, 80), (240, 80), (320, 80)] (by omega) (by simp) (by omega)
    have d6 := doRead_ok file 80 400 480
      [(0, 80), (80, 80), (160, 80), (240, 80), (320, 80)]
      [(0, 80), (80, 80), (160, 80), (240, 80), (320, 80), (400, 80)]
      (by omega) (by simp) (by omega)
    have d7 := doRead_ok file 80 480 560
      [(0, 80), (80, 80), (160, 80), (240, 80), (320, 80), (400, 80)]
      [(0, 80), (80, 80), (160, 80), (240, 80), (320, 80), (400, 80), (480, 80)]
      (by omega) (by simp) (by omega)
    have d8 := doRead_ok file 80 560 640
      [(0, 80), (80, 80), (160, 80), (240, 80), (320, 80), (400, 80), (480, 80)]
      [(0, 80), (80, 80), (160, 80), (240, 80), (320, 80), (400, 80), (480, 80),
        (560, 80)] (by omega) (by simp) (by omega)
    simp [Read_Headers, d1, d2, d3, d4, d5, d6, d7, d8, ha, hb, hc2, hm]
  · intro cnt ha hb hc2 hd hcnt hlen hm
    rw [Read_Headers_run file cnt ha hb hc2 hd hcnt hlen, if_pos hm]

set_option maxRecDepth 200000 in
/-- Claim C7, counterexample: on the concrete valid stream `fileX`,
`Read_Headers` succeeds, the Member signature sits in the block at offset
240 (not at 160 or 80), and the successful run's trace shows TWO 80-byte
reads — `(80, 80)` and `(160, 80)` — strictly between the Library-check
read `(0, 80)` and the Member-check read `(240, 80)`, not one: the code
discards both a `File_Header_Record` and a `Date_Time_Record` there, each
as a padded 80-byte read. -/
theorem c7_discard_count_counterexample :
    (Read_Headers fileX).outcome = some NStatus.Ok ∧
    (Read_Headers fileX).reads =
      [(0, 80), (80, 80), (160, 80), (240, 80), (320, 80), (400, 80), (480, 80),
        (560, 80), (640, 80), (720, 60), (800, 80)] ∧
    Recognize_Data_Header ((fileX.drop 80).take 80) ≠ Header_Signature.member ∧
    Recognize_Data_Header ((fileX.drop 160).take 80) ≠ Header_Signature.member ∧
    Recognize_Data_Header ((fileX.drop 240).take 80) = Header_Signature.member := by
  rw [Read_Headers_fileX]
  refine ⟨rfl, rfl, by decide, by decide, by decide⟩

/-- Claim C7 (amended): during a successful run of `Read_Headers`, exactly
TWO 80-byte descriptive sub-records are read and discarded between the
Library header check and the Member header check (the `File_Header_Record`
and `Date_Time_Record` padded reads at offsets 80 and 160), and exactly two
between the Descriptor check and the Namestr check (offsets 400 and 480):
the full trace is the eight 80-byte header-region reads at offsets 0, 80,
..., 560, the descriptor reads, and the Observation read. -/
theorem c7_amended_two_subrecords (file : List Nat) (cnt : Nat)
    (h1 : Recognize_Data_Header (file.take 80) = Header_Signature.library)
    (h2 : Recognize_Data_Header ((file.drop 240).take 80) = Header_Signature.member)
    (h3 : Recognize_Data_Header ((file.drop 320).take 80) = Header_Signature.descriptor)
    (h4 : Recognize_Data_Header ((file.drop 560).take 80) = Header_Signature.namestr)
    (hc : stoull5 ((((file.drop 560).take 80).drop 53).take 5) = some cnt)
    (hlen : 640 + 140 * cnt + padAfter (140 * cnt) + 80 ≤ file.length) :
    (Read_Headers file).reads =
      [(0, 80), (80, 80), (160, 80), (240, 80), (320, 80), (400, 80), (480, 80),
        (560, 80)] ++ descTrace 640 cnt
        ++ [(640 + 140 * cnt + padAfter (140 * cnt), 80)] := by
  rw [Read_Headers_run file cnt h1 h2 h3 h4 hc hlen]
  split <;> rfl

set_option maxRecDepth 200000 in
/-- Witness for the amended C7 at the concrete stream `fileX`
(one descriptor, so the trace ends with the observation read at 800). -/
theorem c7_amended_two_subrecords_witness :
    Recognize_Data_Header (fileX.take 80) = Header_Signature.library ∧
    (Read_Headers fileX).reads =
      [(0, 80), (80, 80), (160, 80), (240, 80), (320, 80), (400, 80), (480, 80),
        (560, 80)] ++ descTrace 640 1
        ++ [(640 + 140 * 1 + padAfter (140 * 1), 80)] :=
  ⟨by decide,
    c7_amended_two_subrecords fileX 1 (by decide) (by decide) (by decide) (by decide)
      (by decide) (by decide)⟩

/-- Claim C8: after reading `cnt` unpadded descriptor pairs (140 bytes
each), `Read_Headers` advances the cursor by exactly
`(80 - (140 * cnt) % 80) % 80` bytes — the code's conditional discard equals
the spec's formula — so the next read, the Observation header block, begins
exactly at the following 80-byte boundary. -/
theorem c8_descriptor_padding_alignment (file : List Nat) (cnt : Nat)
    (h1 : Recognize_Data_Header (file.take 80) = Header_Signature.library)
    (h2 : Recognize_Data_Header ((file.drop 240).take 80) = Header_Signature.member)
    (h3 : Recognize_Data_Header ((file.drop 320).take 80) = Header_Signature.descriptor)
    (h4 : Recognize_Data_Header ((file.drop 560).take 80) = Header_Signature.namestr)
    (hc : stoull5 ((((file.drop 560).take 80).drop 53).take 5) = some cnt)
    (hlen : 640 + 140 * cnt + padAfter (140 * cnt) + 80 ≤ file.length) :
    padAfter (140 * cnt) = (80 - (140 * cnt) % 80) % 80 ∧
    (Read_Headers file).reads.getLast? =
      some (640 + 140 * cnt + (80 - (140 * cnt) % 80) % 80, 80) ∧
    (640 + 140 * cnt + (80 - (140 * cnt) % 80) % 80) % 80 = 0 := by
  have hpad : padAfter (140 * cnt) = (80 - (140 * cnt) % 80) % 80 := by
    unfold padAfter
    split <;> omega
  refine ⟨hpad, ?_, by omega⟩
  rw [Read_Headers_run file cnt h1 h2 h3 h4 hc hlen, ← hpad]
  split <;> exact List.getLast?_concat _

set_option maxRecDepth 200000 in
/-- Witness for C8 at the concrete stream `fileX`: one descriptor, 140
descriptor bytes, so 20 padding bytes are discarded and the Observation read
begins at 800 = 10 * 80. -/
theorem c8_descriptor_padding_alignment_witness :
    Recognize_Data_Header (fileX.take 80) = Header_Signature.library ∧
    (Read_Headers fileX).reads.getLast? =
      some (640 + 140 * 1 + (80 - (140 * 1) % 80) % 80, 80) ∧
    (640 + 140 * 1 + (80 - (140 * 1) % 80) % 80) % 80 = 0 :=
  ⟨by decide,
    (c8_descriptor_padding_alignment fileX 1 (by decide) (by decide) (by decide)
      (by decide) (by decide) (by decide)).2⟩

/-- Claim C9, counterexample: on the concrete stream `fileX`,
`Read_Headers` returns Ok with a descriptor table whose single variable has
`offset + byteLength = 108 > recordLength = 8`: the code never validates
`npos` against the record length, so the claimed invariant fails on an
accepted session. -/
theorem c9_invariant_counterexample :
    (Read_Headers fileX).outcome = some NStatus.Ok ∧
    (Read_Headers fileX).vars = [⟨[88], [], 1, 8, 1, 100⟩] ∧
    (Read_Headers fileX).recLen = 8 ∧
    ¬ (100 + 8 ≤ 8) := by
  rw [Read_Headers_fileX]
  exact ⟨rfl, rfl, rfl, by omega⟩

/-- Claim C9 (amended): for every session in which `Read_Headers` returned
Ok, `recordLength` equals the sum of all descriptors' byteLengths — this
part of the claimed invariant the code does guarantee; the bound
`offset + byteLength ≤ recordLength` is not checked and can fail for
accepted inputs (see the counterexample). -/
theorem c9_amended_record_length_sum (file : List Nat)
    (h : (Read_Headers file).outcome = some NStatus.Ok) :
    (Read_Headers file).recLen
      = ((Read_Headers file).vars.map Variable_Record.length).sum :=
  Read_Headers_recLen_sum file

/-- Witness for the amended C9 at the concrete stream `fileX`. -/
theorem c9_amended_record_length_sum_witness :
    (Read_Headers fileX).outcome = some NStatus.Ok ∧
    (Read_Headers fileX).recLen
      = ((Read_Headers fileX).vars.map Variable_Record.length).sum :=
  ⟨by rw [Read_Headers_fileX], c9_amended_record_length_sum fileX
    (by rw [Read_Headers_fileX])⟩

/-- Witness for C5: a two-column session (one Numeric at offset 0, one
String of width 3 at offset 8), one 11-byte row holding the IBM encoding of
1.0 followed by the text "  X". -/
theorem c5_positional_decode_witness :
    (∀ mvar ∈ [Variable_Record.mk [65] [] 1 8 1 0, Variable_Record.mk [66] [] 2 3 2 8],
      mvar.position + (if mvar.type = 1 then 8 else mvar.length) ≤ 11) ∧
    Read_Next [Variable_Record.mk [65] [] 1 8 1 0, Variable_Record.mk [66] [] 2 3 2 8]
        11 [0x41, 0x10, 0, 0, 0, 0, 0, 0, 32, 32, 88] 0
      = some [TValue.vnum 0x3FF0000000000000, TValue.vstr [88]] ∧
    [TValue.vnum 0x3FF0000000000000, TValue.vstr [88]].length = 2 :=
  ⟨by decide, by decide,
    (c5_positional_decode
      [Variable_Record.mk [65] [] 1 8 1 0, Variable_Record.mk [66] [] 2 3 2 8]
      11 [0x41, 0x10, 0, 0, 0, 0, 0, 0, 32, 32, 88] 0
      [TValue.vnum 0x3FF0000000000000, TValue.vstr [88]]
      (by decide) (by decide)).1⟩

end Xpt
